import Mathlib

/-!
Formal model of the HyperHeadset protocol client (`src/hyperheadset/client.py`
together with `enums.py` and `models.py`), and proofs of the specified
properties of its frame codec, retrying query engine, and status decoders.

Byte sequences are modelled as `List Nat`; machine-integer truncation in the
source (Python `& 0xFF`) is written with `&&&` on `Nat`, except where noted.
Device I/O is modelled by an oracle: a function giving, per attempt, what the
transport produced.
-/

namespace HyperHeadset

/-! ## Enumerations (`enums.py`) -/

/-- Opcode of the `getHeadsetStatus` command (`Command` IntEnum). -/
def Command.getHeadsetStatus : Nat := 0x54

/-- Opcode of the `getSliderValue` command (`Command` IntEnum). -/
def Command.getSliderValue : Nat := 0x68

/-- Opcode of the `getNoiseGateMode` command (`Command` IntEnum). -/
def Command.getNoiseGateMode : Nat := 0x6A

/-- Opcode of the `getActiveEqPreset` command (`Command` IntEnum). -/
def Command.getActiveEqPreset : Nat := 0x6C

/-- Opcode of the `getBalance` command (`Command` IntEnum). -/
def Command.getBalance : Nat := 0x72

/-- Opcode of the `getDefaultBalance` command (`Command` IntEnum). -/
def Command.getDefaultBalance : Nat := 0x77

/-- Opcode of the `getAlertVolume` command (`Command` IntEnum). -/
def Command.getAlertVolume : Nat := 0x7A

/-- Opcode of the `getMicEq` command (`Command` IntEnum). -/
def Command.getMicEq : Nat := 0x7B

/-- Opcode of the `getBatteryStatus` command (`Command` IntEnum). -/
def Command.getBatteryStatus : Nat := 0x7C

/-- The `sidetone` member of the `SliderType` IntEnum. -/
def SliderType.sidetone : Nat := 0x05

/-! ## Models (`models.py`) -/

/-- `BatteryStatus` frozen dataclass from `models.py`.  `chargePercent` is a
`Nat` because the decoder only ever produces `byte & 0x7F`, which is
nonnegative. -/
structure BatteryStatus where
  isCharging : Bool
  chargePercent : Nat
deriving DecidableEq

/-! ## Frame codec (`AstroA50Client` helpers in `client.py`) -/

/-- `AstroA50Client._buildRequestFrame`.  Builds
`[0x02, commandId & 0xFF, payloadLength, ...payload]` zero-padded to the body
size; a 65-byte report gets a leading `0x00` report-id byte before a 64-byte
body.  `payloadBytes = none` models Python `None`; Python treats an empty
payload list as falsy, exactly like `None`. -/
def buildRequestFrame (commandId : Nat) (payloadBytes : Option (List Nat))
    (reportLength : Nat) : List Nat :=
  let frameBytes : List Nat :=
    match payloadBytes with
    | none => [0x02, commandId &&& 0xFF, 0x00]
    | some p =>
      if p = [] then [0x02, commandId &&& 0xFF, 0x00]
      else [0x02, commandId &&& 0xFF, p.length &&& 0xFF] ++ p.map (fun value => value &&& 0xFF)
  if reportLength = 65 then
    0x00 :: (frameBytes ++ List.replicate (64 - frameBytes.length) 0)
  else
    frameBytes ++ List.replicate (reportLength - frameBytes.length) 0

/-- `AstroA50Client._normalizeResponseFrame`: strip a single leading `0x00`
report-id byte when it is followed by the `0x02` frame marker. -/
def normalizeResponseFrame (responseFrame : List Nat) : List Nat :=
  if responseFrame ≠ [] ∧ responseFrame.getD 0 0 = 0x00 ∧
      1 < responseFrame.length ∧ responseFrame.getD 1 0 = 0x02 then
    responseFrame.drop 1
  else
    responseFrame

/-- `AstroA50Client._extractPayload`: require at least 3 bytes, frame marker
`0x02` and status-ok byte `0x02`, then return `frame[3 : 3 + payloadLength]`
with `payloadLength` clamped to the bytes actually present. -/
def extractPayload (responseFrame : List Nat) : Option (List Nat) :=
  if responseFrame.length < 3 then
    none
  else
    let frameStartByte := responseFrame.getD 0 0
    let statusCodeByte := responseFrame.getD 1 0
    if frameStartByte ≠ 0x02 ∨ statusCodeByte ≠ 0x02 then
      none
    else
      let payloadLength := min (responseFrame.getD 2 0) (max 0 (responseFrame.length - 3))
      some ((responseFrame.drop 3).take payloadLength)

/-! ## Retrying query engine (`AstroA50Client._query`) -/

/-- What one retry iteration of `_query` observes from
`_sendCommandOnce`: the call raised (`exc`), or returned an optional
(already normalized) response frame, where `response none` is Python `None`. -/
inductive AttemptOutcome where
  | exc
  | response (frame : Option (List Nat))
deriving DecidableEq

/-- The payload a single `_query` attempt yields, if any: the response must be
truthy (present and nonempty) and `_extractPayload` must succeed on it. -/
def attemptPayload : AttemptOutcome → Option (List Nat)
  | .exc => none
  | .response none => none
  | .response (some frame) => if frame = [] then none else extractPayload frame

/-- The retry loop of `AstroA50Client._query`.  `outcomes` is the transport
oracle indexed by attempt number, `fuel` the remaining attempts, `i` the
current attempt index, and `lastError` the index of the last attempt that
raised (modelling the recorded `lastError` exception).  On exhaustion the
`RuntimeError` chains `lastError`. -/
def queryGo (outcomes : Nat → AttemptOutcome) :
    Nat → Nat → Option Nat → Except (Option Nat) (List Nat)
  | 0, _, lastError => .error lastError
  | fuel + 1, i, lastError =>
    match outcomes i with
    | .exc => queryGo outcomes fuel (i + 1) (some i)
    | .response none => queryGo outcomes fuel (i + 1) lastError
    | .response (some responseFrame) =>
      if responseFrame = [] then
        queryGo outcomes fuel (i + 1) lastError
      else
        match extractPayload responseFrame with
        | some payloadFromDevice => .ok payloadFromDevice
        | none => queryGo outcomes fuel (i + 1) lastError

/-- `AstroA50Client._query` (default `retries = 4`): runs up to `retries`
attempts starting at attempt 0 with no recorded error. -/
def query (outcomes : Nat → AttemptOutcome) (retries : Nat := 4) :
    Except (Option Nat) (List Nat) :=
  queryGo outcomes retries 0 none

/-- The index of the last attempt before `retries` whose outcome raised, if
any: the exception `_query` chains into its final `RuntimeError`. -/
def lastExcIndex (outcomes : Nat → AttemptOutcome) : Nat → Option Nat
  | 0 => none
  | n + 1 => if outcomes n = .exc then some n else lastExcIndex outcomes n

/-- Accumulator form of `lastExcIndex`, mirroring how `queryGo` threads its
recorded `lastError` forward through `fuel` attempts starting at attempt `i`. -/
def lastExcAcc (outcomes : Nat → AttemptOutcome) :
    Nat → Nat → Option Nat → Option Nat
  | 0, _, lastError => lastError
  | fuel + 1, i, lastError =>
    lastExcAcc outcomes fuel (i + 1) (if outcomes i = .exc then some i else lastError)

/-! ## Battery path (`AstroA50Client.getBatteryStatus`) -/

/-- The battery decode in `getBatteryStatus`:
`isCharging = bool(byte & 0x80)`, `chargePercent = byte & 0x7F`. -/
def decodeBattery (statusByte : Nat) : BatteryStatus :=
  { isCharging := statusByte &&& 0x80 != 0
    chargePercent := statusByte &&& 0x7F }

/-- How `getBatteryStatus` can fail: a `_query` cycle raised (the exception
propagates, tagged with its cycle index), or all cycles were exhausted with no
cache (`RuntimeError` about no sane battery value). -/
inductive BatteryFailure where
  | queryFailed (cycle : Nat)
  | noSaneValue
deriving DecidableEq

/-- The retry-with-fallback loop of `AstroA50Client.getBatteryStatus`.
`queryResults i` is what the `_query` call of cycle `i` produced (`none` when
it raised).  Returns the `BatteryStatus` handed to the caller together with
the session cache (`lastGoodBatteryStatus`) after the call. -/
def getBatteryStatusGo (queryResults : Nat → Option (List Nat)) :
    Nat → Nat → Option BatteryStatus →
    Except BatteryFailure BatteryStatus × Option BatteryStatus
  | 0, _, cache =>
    match cache with
    | some cached => (.ok cached, some cached)
    | none => (.error .noSaneValue, none)
  | fuel + 1, i, cache =>
    match queryResults i with
    | none => (.error (.queryFailed i), cache)
    | some payloadBytes =>
      match payloadBytes with
      | [] => getBatteryStatusGo queryResults fuel (i + 1) cache
      | statusByte :: _ =>
        let batteryStatus := decodeBattery statusByte
        if 0 ≤ batteryStatus.chargePercent ∧ batteryStatus.chargePercent ≤ 100 then
          (.ok batteryStatus, some batteryStatus)
        else
          getBatteryStatusGo queryResults fuel (i + 1) cache

/-- `AstroA50Client.getBatteryStatus` (default `retries = 6`), starting from
the current `lastGoodBatteryStatus` cache of the session.  First component: what
the call returns (or how it fails); second component: the updated session
`lastGoodBatteryStatus` after the call. -/
def getBatteryStatus (queryResults : Nat → Option (List Nat))
    (cache : Option BatteryStatus) (retries : Nat := 6) :
    Except BatteryFailure BatteryStatus × Option BatteryStatus :=
  getBatteryStatusGo queryResults retries 0 cache

/-- The decoded battery reading a single `getBatteryStatus` cycle accepts, if
any: the `_query` of the cycle must have returned a nonempty payload whose first
byte decodes to a charge percent in `[0, 100]`. -/
def acceptedBattery : Option (List Nat) → Option BatteryStatus
  | none => none
  | some [] => none
  | some (statusByte :: _) =>
    let batteryStatus := decodeBattery statusByte
    if batteryStatus.chargePercent ≤ 100 then some batteryStatus else none

/-! ## Per-command decoders over a query oracle -/

/-- The sub-selector byte `getSliderValue` derives from its argument:
Python `int(sliderType) & 0xFF`.  On a (twos-complement, arbitrary-precision)
Python int, `& 0xFF` is the nonnegative remainder modulo 256, which is
`Int.emod` here. -/
def sliderId (sliderType : Int) : Nat := (sliderType % 256).toNat

/-- `AstroA50Client.getSliderValue` as a function of the `_query` oracle
(command id and optional payload to the payload `_query` returns): checks
length ≥ 4 and the echoed command and slider ids, then reads the active or
saved value byte.  Errors carry the raw payload (`UnexpectedPayloadError`). -/
def getSliderValue (queryOracle : Nat → Option (List Nat) → List Nat)
    (sliderType : Int) (saved : Bool) : Except (List Nat) Nat :=
  let payloadBytes := queryOracle Command.getSliderValue (some [sliderId sliderType])
  if payloadBytes.length < 4 ∨ payloadBytes.getD 0 0 ≠ Command.getSliderValue ∨
      payloadBytes.getD 1 0 ≠ sliderId sliderType then
    .error payloadBytes
  else
    .ok (payloadBytes.getD (2 + if saved then 1 else 0) 0)

/-- `AstroA50Client.getNoiseGateMode` as a function of the `_query` oracle:
queries with no payload, checks length ≥ 3 and the echoed command id, then
reads the active (`saved = false`) or saved (`saved = true`) mode byte. -/
def getNoiseGateMode (queryOracle : Nat → Option (List Nat) → List Nat)
    (saved : Bool) : Except (List Nat) Nat :=
  let payloadBytes := queryOracle Command.getNoiseGateMode none
  if payloadBytes.length < 3 ∨ payloadBytes.getD 0 0 ≠ Command.getNoiseGateMode then
    .error payloadBytes
  else
    .ok (payloadBytes.getD (1 + if saved then 1 else 0) 0)

/-! ## Helper lemmas -/

theorem land_two_pow_sub_one (n k : Nat) : n &&& (2 ^ k - 1) = n % 2 ^ k := by
  apply Nat.eq_of_testBit_eq
  intro i
  simp [Nat.testBit_and, Nat.testBit_mod_two_pow, Nat.testBit_two_pow_sub_one]

theorem land255_eq_mod (n : Nat) : n &&& 0xFF = n % 256 := by
  have h := land_two_pow_sub_one n 8
  norm_num at h
  exact h

theorem land127_eq_mod (n : Nat) : n &&& 0x7F = n % 128 := by
  have h := land_two_pow_sub_one n 7
  norm_num at h
  exact h

theorem land128_testBit (n : Nat) : (n &&& 0x80 != 0) = n.testBit 7 := by
  have h : (0x80 : Nat) = 2 ^ 7 := by norm_num
  rw [h, Nat.and_two_pow]
  cases hb : n.testBit 7 <;> simp [hb]

/-! ## Claim theorems -/

/-- Claim C3: `extractPayload` is absent exactly when the frame has fewer than
3 bytes, or byte 0 is not `0x02`, or byte 1 is not `0x02`; otherwise it
returns `frame[3 : 3+n]` with `n = frame[2]` clamped from above by
`len(frame) - 3`, so the returned payload never reaches past the buffer; and
`extractPayload [0x02, 0x02, 0x01, 0x55] = some [0x55]` while
`extractPayload [0x02, 0x01, 0x01, 0x55]` is absent. -/
theorem extractPayload_spec :
    (∀ responseFrame : List Nat,
      (extractPayload responseFrame = none ↔
        responseFrame.length < 3 ∨ responseFrame.getD 0 0 ≠ 0x02 ∨
          responseFrame.getD 1 0 ≠ 0x02) ∧
      (3 ≤ responseFrame.length → responseFrame.getD 0 0 = 0x02 →
        responseFrame.getD 1 0 = 0x02 →
        extractPayload responseFrame =
          some ((responseFrame.drop 3).take
            (min (responseFrame.getD 2 0) (responseFrame.length - 3)))) ∧
      ((extractPayload responseFrame).getD []).length ≤ responseFrame.length - 3) ∧
    extractPayload [0x02, 0x02, 0x01, 0x55] = some [0x55] ∧
    extractPayload [0x02, 0x01, 0x01, 0x55] = none := by
  refine ⟨fun f => ⟨?_, ?_, ?_⟩, by decide, by decide⟩
  · by_cases h1 : f.length < 3
    · simp [extractPayload, h1]
    · by_cases h2 : f.getD 0 0 ≠ 0x02 ∨ f.getD 1 0 ≠ 0x02
      · simp only [extractPayload, if_neg h1, if_pos h2]
        tauto
      · simp only [extractPayload, if_neg h1, if_neg h2]
        push_neg at h2
        simp only [h2.1, h2.2]
        simp [h1]
  · intro hlen h0 h1
    have hge3 : ¬ (f.length < 3) := by omega
    have h2 : ¬ (f.getD 0 0 ≠ 0x02 ∨ f.getD 1 0 ≠ 0x02) := by
      push_neg
      exact ⟨h0, h1⟩
    simp only [extractPayload, if_neg hge3, if_neg h2]
    rw [Nat.zero_max]
  · by_cases h1 : f.length < 3
    · simp [extractPayload, h1]
    · by_cases h2 : f.getD 0 0 ≠ 0x02 ∨ f.getD 1 0 ≠ 0x02
      · simp only [extractPayload, if_neg h1, if_pos h2]
        simp
      · simp only [extractPayload, if_neg h1, if_neg h2, Option.getD_some,
          List.length_take, List.length_drop]
        omega

/-- Witness for claim C3 at a frame whose length byte exceeds the available
bytes: the clamp keeps the payload inside the buffer. -/
theorem extractPayload_spec_witness :
    extractPayload [0x02, 0x02, 0x05, 0x55] =
      some ((([0x02, 0x02, 0x05, 0x55] : List Nat).drop 3).take
        (min (([0x02, 0x02, 0x05, 0x55] : List Nat).getD 2 0)
          (([0x02, 0x02, 0x05, 0x55] : List Nat).length - 3))) :=
  (extractPayload_spec.1 [0x02, 0x02, 0x05, 0x55]).2.1 (by decide) (by decide) (by decide)

/-- Counterexample to claim C4 as stated: the claim quantifies over every
`reportLength`, but at `reportLength = 2` the produced body has 3 bytes, not
exactly `reportLength` bytes — the zero-padding never truncates the 3-byte
header. -/
theorem buildRequestFrame_claim_false :
    ¬ ((buildRequestFrame 0x7C none 2).length = 2) := by decide

/-- Claim C4 (amended): provided the 3-byte header plus payload fits in the
body — `3 + len(payload) ≤ 64` when `reportLength = 65`, `≤ reportLength`
otherwise — `buildRequestFrame` produces
`[0x02, commandId mod 256, len(payload) mod 256, ...payload mod 256]`
zero-padded so the body is exactly the body size, with one leading `0x00`
report-id byte (total 65) exactly when `reportLength = 65`; and
`buildRequestFrame 0x7C none 64 = [0x02, 0x7C, 0x00]` followed by 61 zero
bytes. -/
theorem buildRequestFrame_spec (commandId : Nat) (payloadBytes : Option (List Nat))
    (reportLength : Nat)
    (hfit : 3 + (payloadBytes.getD []).length ≤
      if reportLength = 65 then 64 else reportLength) :
    buildRequestFrame commandId payloadBytes reportLength =
      (if reportLength = 65 then [0x00] else []) ++
        [0x02, commandId % 256, (payloadBytes.getD []).length % 256] ++
        (payloadBytes.getD []).map (fun value => value % 256) ++
        List.replicate ((if reportLength = 65 then 64 else reportLength) -
          (3 + (payloadBytes.getD []).length)) 0 ∧
    (buildRequestFrame commandId payloadBytes reportLength).length =
      (if reportLength = 65 then 65 else reportLength) ∧
    buildRequestFrame 0x7C none 64 = [0x02, 0x7C, 0x00] ++ List.replicate 61 0 := by
  have hframe :
      (match payloadBytes with
        | none => [0x02, commandId &&& 0xFF, 0x00]
        | some p =>
          if p = [] then [0x02, commandId &&& 0xFF, 0x00]
          else [0x02, commandId &&& 0xFF, p.length &&& 0xFF] ++
            p.map (fun value => value &&& 0xFF)) =
      [0x02, commandId % 256, (payloadBytes.getD []).length % 256] ++
        (payloadBytes.getD []).map (fun value => value % 256) := by
    rcases payloadBytes with _ | p
    · simp [land255_eq_mod]
    · by_cases hp : p = []
      · subst hp
        simp [land255_eq_mod]
      · simp only [if_neg hp, Option.getD_some, land255_eq_mod]
  have hlen : ([0x02, commandId % 256, (payloadBytes.getD []).length % 256] ++
      (payloadBytes.getD []).map (fun value => value % 256)).length =
      3 + (payloadBytes.getD []).length := by
    simp
    omega
  refine ⟨?_, ?_, by decide⟩
  · simp only [buildRequestFrame]
    rw [hframe, hlen]
    by_cases h65 : reportLength = 65
    · simp [h65]
    · simp [h65]
  · simp only [buildRequestFrame]
    rw [hframe]
    by_cases h65 : reportLength = 65
    · subst h65
      simp at hfit ⊢
      omega
    · simp [h65] at hfit ⊢
      omega

/-- Witness for claim C4 (amended) at the example input given in the spec. -/
theorem buildRequestFrame_spec_witness :
    buildRequestFrame 0x7C none 64 = [0x02, 0x7C, 0x00] ++ List.replicate 61 0 := by
  have h := buildRequestFrame_spec 0x7C none 64 (by decide)
  exact h.2.2

/-- Claim C7: decoding a battery payload byte sets `isCharging` to bit `0x80`
(bit 7) and `chargePercent` to the low 7 bits (the value modulo 128); byte
`0x85` decodes to charging at 5 percent, byte `0x64` to not charging at 100
percent. -/
theorem decodeBattery_spec :
    (∀ statusByte : Nat,
      (decodeBattery statusByte).isCharging = statusByte.testBit 7 ∧
      (decodeBattery statusByte).chargePercent = statusByte % 128) ∧
    decodeBattery 0x85 = { isCharging := true, chargePercent := 5 } ∧
    decodeBattery 0x64 = { isCharging := false, chargePercent := 100 } := by
  refine ⟨fun statusByte => ⟨?_, ?_⟩, by decide, by decide⟩
  · rw [decodeBattery]
    exact land128_testBit statusByte
  · rw [decodeBattery]
    exact land127_eq_mod statusByte

/-- Claim C9: `getSliderValue` reduces its `sliderType` argument modulo 256
both in the request sub-selector byte and in the echoed-byte check, so two
arguments congruent modulo 256 issue the same request and accept exactly the
same responses. -/
theorem getSliderValue_mod256 (sliderType1 sliderType2 : Int)
    (h : sliderType1 % 256 = sliderType2 % 256) :
    sliderId sliderType1 = sliderId sliderType2 ∧
    ∀ (queryOracle : Nat → Option (List Nat) → List Nat) (saved : Bool),
      getSliderValue queryOracle sliderType1 saved =
        getSliderValue queryOracle sliderType2 saved := by
  have hid : sliderId sliderType1 = sliderId sliderType2 := by
    unfold sliderId
    rw [h]
  refine ⟨hid, fun queryOracle saved => ?_⟩
  unfold getSliderValue
  rw [hid]

/-- Witness for claim C9: `261 ≡ 5 (mod 256)` issue and accept alike. -/
theorem getSliderValue_mod256_witness :
    (261 : Int) % 256 = (5 : Int) % 256 ∧
    sliderId 261 = sliderId 5 ∧
    getSliderValue (fun _ _ => [0x68, 0x05, 0x32, 0x28]) 261 true =
      getSliderValue (fun _ _ => [0x68, 0x05, 0x32, 0x28]) 5 true := by
  have h := getSliderValue_mod256 261 5 (by decide)
  exact ⟨by decide, h.1, h.2 (fun _ _ => [0x68, 0x05, 0x32, 0x28]) true⟩

/-- Claim C10: `getNoiseGateMode` issues its query with no payload regardless
of `saved` (and the built request frame carries length byte `0x00`); `saved`
only selects response byte 1 (`saved = false`) or byte 2 (`saved = true`),
after checking length ≥ 3 and that byte 0 echoes the noise-gate command id
`0x6A`. -/
theorem getNoiseGateMode_spec :
    (∀ (queryOracle : Nat → Option (List Nat) → List Nat) (saved : Bool),
      getNoiseGateMode queryOracle saved =
        (if 3 ≤ (queryOracle 0x6A none).length ∧
            (queryOracle 0x6A none).getD 0 0 = 0x6A then
          .ok ((queryOracle 0x6A none).getD (if saved then 2 else 1) 0)
        else
          .error (queryOracle 0x6A none))) ∧
    (∀ reportLength : Nat,
      (if reportLength = 65 then
        (buildRequestFrame Command.getNoiseGateMode none reportLength).getD 3 1
      else
        (buildRequestFrame Command.getNoiseGateMode none reportLength).getD 2 1) = 0) := by
  constructor
  · intro queryOracle saved
    simp only [getNoiseGateMode, Command.getNoiseGateMode]
    set p := queryOracle 0x6A none with hp
    by_cases h : 3 ≤ p.length ∧ p.getD 0 0 = 0x6A
    · rw [if_neg (by push_neg; exact ⟨h.1, h.2⟩), if_pos h]
      cases saved <;> rfl
    · rw [if_pos ?side, if_neg h]
      case side =>
        by_contra hc
        push_neg at hc
        exact h ⟨hc.1, hc.2⟩
  · intro reportLength
    by_cases h65 : reportLength = 65
    · subst h65
      simp [buildRequestFrame]
    · simp only [if_neg h65, buildRequestFrame]
      simp [h65]

/-- Claim C1: for any command id, payload, and report length in the candidate
list (64, 65), a well-formed status-ok echo of the request — body
`[0x02, 0x02, payloadLength, ...payload, ...zero padding]`, preceded by one
`0x00` report-id byte exactly when the report length is 65 — round-trips:
`extractPayload (normalizeResponseFrame echo)` is exactly the original
payload bytes. -/
theorem echo_roundTrip (_commandId : Nat) (payload : List Nat) (reportLength : Nat)
    (hreport : reportLength = 64 ∨ reportLength = 65)
    (hfit : payload.length ≤ 61) :
    extractPayload (normalizeResponseFrame
      ((if reportLength = 65 then [0x00] else []) ++
        [0x02, 0x02, payload.length] ++ payload ++
        List.replicate (61 - payload.length) 0)) = some payload := by
  have hcore : extractPayload
      (0x02 :: 0x02 :: payload.length ::
        (payload ++ List.replicate (61 - payload.length) 0)) = some payload := by
    have hlen : (0x02 :: 0x02 :: payload.length ::
        (payload ++ List.replicate (61 - payload.length) 0)).length = 64 := by
      simp
      omega
    simp [extractPayload, hlen, Nat.min_eq_left hfit, List.take_left]
  rcases hreport with h | h <;> subst h
  · rw [show (if (64 : Nat) = 65 then [0x00] else ([] : List Nat)) = [] from rfl]
    simp only [List.nil_append, List.cons_append]
    simp only [normalizeResponseFrame]
    rw [if_neg (by simp)]
    exact hcore
  · rw [show (if (65 : Nat) = 65 then [0x00] else ([] : List Nat)) = [0x00] from rfl]
    simp only [List.cons_append, List.nil_append]
    simp only [normalizeResponseFrame]
    rw [if_pos ?cond]
    case cond =>
      refine ⟨by simp, by simp, ?_, by simp⟩
      simp only [List.length_cons]
      omega
    simp only [List.drop_succ_cons, List.drop_zero]
    exact hcore

/-- Witness for claim C1 at payload `[0x55]` with report length 64. -/
theorem echo_roundTrip_witness :
    extractPayload (normalizeResponseFrame
      ((if (64 : Nat) = 65 then [0x00] else []) ++
        [0x02, 0x02, ([0x55] : List Nat).length] ++ [0x55] ++
        List.replicate (61 - ([0x55] : List Nat).length) 0)) = some [0x55] :=
  echo_roundTrip 0x7C [0x55] 64 (Or.inl rfl) (by decide)

/-- Claim C8: `getSliderValue` fails, carrying the raw payload bytes, unless
the queried payload has length at least 4, byte 0 equals the slider command
id `0x68`, and byte 1 equals the requested slider id; when the checks pass it
returns the byte at index `2 + (1 if saved else 0)`; payload
`[0x68, 0x05, 0x32, 0x28]` yields 50 with `saved = false` and 40 with
`saved = true`. -/
theorem getSliderValue_spec :
    (∀ (queryOracle : Nat → Option (List Nat) → List Nat) (sliderType : Int)
        (saved : Bool),
      getSliderValue queryOracle sliderType saved =
        (if 4 ≤ (queryOracle 0x68 (some [sliderId sliderType])).length ∧
            (queryOracle 0x68 (some [sliderId sliderType])).getD 0 0 = 0x68 ∧
            (queryOracle 0x68 (some [sliderId sliderType])).getD 1 0 =
              sliderId sliderType then
          .ok ((queryOracle 0x68 (some [sliderId sliderType])).getD
            (if saved then 3 else 2) 0)
        else
          .error (queryOracle 0x68 (some [sliderId sliderType])))) ∧
    getSliderValue (fun _ _ => [0x68, 0x05, 0x32, 0x28]) 5 false = .ok 50 ∧
    getSliderValue (fun _ _ => [0x68, 0x05, 0x32, 0x28]) 5 true = .ok 40 := by
  refine ⟨fun queryOracle sliderType saved => ?_, rfl, rfl⟩
  simp only [getSliderValue, Command.getSliderValue]
  set p := queryOracle 0x68 (some [sliderId sliderType]) with hp
  by_cases h : 4 ≤ p.length ∧ p.getD 0 0 = 0x68 ∧ p.getD 1 0 = sliderId sliderType
  · rw [if_neg (by push_neg; exact ⟨h.1, h.2.1, h.2.2⟩), if_pos h]
    cases saved <;> rfl
  · rw [if_pos ?side2, if_neg h]
    case side2 =>
      by_contra hc
      push_neg at hc
      exact h ⟨hc.1, hc.2.1, hc.2.2⟩

/-- Peeling the last attempt off the accumulator form of the last-exception
index. -/
theorem lastExcAcc_succ (outcomes : Nat → AttemptOutcome) :
    ∀ (fuel i : Nat) (lastError : Option Nat),
      lastExcAcc outcomes (fuel + 1) i lastError =
        if outcomes (i + fuel) = .exc then some (i + fuel)
        else lastExcAcc outcomes fuel i lastError := by
  intro fuel
  induction fuel with
  | zero =>
    intro i lastError
    simp [lastExcAcc]
  | succ n ih =>
    intro i lastError
    rw [show lastExcAcc outcomes (n + 1 + 1) i lastError =
      lastExcAcc outcomes (n + 1) (i + 1)
        (if outcomes i = .exc then some i else lastError) from rfl]
    rw [ih]
    rw [show lastExcAcc outcomes (n + 1) i lastError =
      lastExcAcc outcomes n (i + 1)
        (if outcomes i = .exc then some i else lastError) from rfl]
    rw [show i + 1 + n = i + (n + 1) from by omega]

/-- Started at attempt 0 with no recorded error, the accumulator form agrees
with `lastExcIndex`. -/
theorem lastExcAcc_eq_lastExcIndex (outcomes : Nat → AttemptOutcome) :
    ∀ retries : Nat,
      lastExcAcc outcomes retries 0 none = lastExcIndex outcomes retries := by
  intro retries
  induction retries with
  | zero => rfl
  | succ n ih =>
    rw [lastExcAcc_succ]
    simp only [Nat.zero_add]
    rw [ih]
    simp only [lastExcIndex]

/-- When none of the `fuel` attempts starting at `i` yields a payload, the
retry loop fails carrying the last recorded exception. -/
theorem queryGo_all_fail (outcomes : Nat → AttemptOutcome) :
    ∀ (fuel i : Nat) (lastError : Option Nat),
      (∀ k, k < fuel → attemptPayload (outcomes (i + k)) = none) →
      queryGo outcomes fuel i lastError =
        .error (lastExcAcc outcomes fuel i lastError) := by
  intro fuel
  induction fuel with
  | zero =>
    intro i lastError _
    rfl
  | succ n ih =>
    intro i lastError hfail
    have h0 : attemptPayload (outcomes i) = none := by
      simpa using hfail 0 (Nat.succ_pos n)
    have hrest : ∀ k, k < n → attemptPayload (outcomes (i + 1 + k)) = none := by
      intro k hk
      have h := hfail (k + 1) (by omega)
      rwa [show i + (k + 1) = i + 1 + k from by omega] at h
    rw [show lastExcAcc outcomes (n + 1) i lastError =
      lastExcAcc outcomes n (i + 1)
        (if outcomes i = .exc then some i else lastError) from rfl]
    cases ho : outcomes i with
    | exc =>
      simp only [queryGo, ho]
      simp only [if_true]
      exact ih (i + 1) (some i) hrest
    | response rframe =>
      rw [if_neg (by simp [ho])]
      cases rframe with
      | none =>
        simp only [queryGo, ho]
        exact ih (i + 1) lastError hrest
      | some f =>
        rw [ho] at h0
        simp only [attemptPayload] at h0
        simp only [queryGo, ho]
        by_cases hf : f = []
        · rw [if_pos hf]
          exact ih (i + 1) lastError hrest
        · rw [if_neg hf] at h0
          rw [if_neg hf, h0]
          exact ih (i + 1) lastError hrest

/-- If attempts `i, ..., i + j - 1` yield no payload and attempt `i + j`
(within the fuel) yields payload `p`, the retry loop returns `p`. -/
theorem queryGo_success (outcomes : Nat → AttemptOutcome) :
    ∀ (fuel j i : Nat) (lastError : Option Nat) (p : List Nat),
      j < fuel →
      (∀ k, k < j → attemptPayload (outcomes (i + k)) = none) →
      attemptPayload (outcomes (i + j)) = some p →
      queryGo outcomes fuel i lastError = .ok p := by
  intro fuel
  induction fuel with
  | zero =>
    intro j i lastError p hj
    exact absurd hj (Nat.not_lt_zero j)
  | succ n ih =>
    intro j i lastError p hj hfail hsucc
    cases j with
    | zero =>
      rw [Nat.add_zero] at hsucc
      cases ho : outcomes i with
      | exc =>
        rw [ho] at hsucc
        simp [attemptPayload] at hsucc
      | response rframe =>
        cases rframe with
        | none =>
          rw [ho] at hsucc
          simp [attemptPayload] at hsucc
        | some f =>
          rw [ho] at hsucc
          simp only [attemptPayload] at hsucc
          simp only [queryGo, ho]
          by_cases hf : f = []
          · rw [if_pos hf] at hsucc
            exact absurd hsucc (by simp)
          · rw [if_neg hf] at hsucc
            rw [if_neg hf, hsucc]
    | succ m =>
      have h0 : attemptPayload (outcomes i) = none := by
        simpa using hfail 0 (Nat.succ_pos m)
      have hrest : ∀ k, k < m → attemptPayload (outcomes (i + 1 + k)) = none := by
        intro k hk
        have h := hfail (k + 1) (by omega)
        rwa [show i + (k + 1) = i + 1 + k from by omega] at h
      have hsucc2 : attemptPayload (outcomes (i + 1 + m)) = some p := by
        rwa [show i + (m + 1) = i + 1 + m from by omega] at hsucc
      cases ho : outcomes i with
      | exc =>
        simp only [queryGo, ho]
        exact ih m (i + 1) (some i) p (by omega) hrest hsucc2
      | response rframe =>
        cases rframe with
        | none =>
          simp only [queryGo, ho]
          exact ih m (i + 1) lastError p (by omega) hrest hsucc2
        | some f =>
          rw [ho] at h0
          simp only [attemptPayload] at h0
          simp only [queryGo, ho]
          by_cases hf : f = []
          · rw [if_pos hf]
            exact ih m (i + 1) lastError p (by omega) hrest hsucc2
          · rw [if_neg hf] at h0
            rw [if_neg hf, h0]
            exact ih m (i + 1) lastError p (by omega) hrest hsucc2

/-- The retry loop consults only the attempts its fuel allows. -/
theorem queryGo_congr (outcomes g : Nat → AttemptOutcome) :
    ∀ (fuel i : Nat) (lastError : Option Nat),
      (∀ k, k < fuel → g (i + k) = outcomes (i + k)) →
      queryGo g fuel i lastError = queryGo outcomes fuel i lastError := by
  intro fuel
  induction fuel with
  | zero =>
    intro i lastError _
    rfl
  | succ n ih =>
    intro i lastError hagree
    have h0 : g i = outcomes i := by
      simpa using hagree 0 (Nat.succ_pos n)
    have hrest : ∀ k, k < n → g (i + 1 + k) = outcomes (i + 1 + k) := by
      intro k hk
      have h := hagree (k + 1) (by omega)
      rwa [show i + (k + 1) = i + 1 + k from by omega] at h
    cases ho : outcomes i with
    | exc =>
      simp only [queryGo, h0, ho]
      exact ih (i + 1) (some i) hrest
    | response rframe =>
      cases rframe with
      | none =>
        simp only [queryGo, h0, ho]
        exact ih (i + 1) lastError hrest
      | some f =>
        simp only [queryGo, h0, ho]
        by_cases hf : f = []
        · rw [if_pos hf, if_pos hf]
          exact ih (i + 1) lastError hrest
        · rw [if_neg hf, if_neg hf]
          cases hx : extractPayload f with
          | some p => rfl
          | none => exact ih (i + 1) lastError hrest

/-- Claim C5: `_query` makes at most `retries` attempts and its result depends
on no later ones; the first attempt whose transport response yields a present
payload makes it return that payload immediately (so a valid response on the
last attempt after `retries - 1` failed attempts still succeeds, and nothing
after the first success is consulted); exhausting all attempts without a
present payload fails, chaining the last recorded transport exception if
any. -/
theorem query_spec (outcomes : Nat → AttemptOutcome) (retries : Nat) :
    ((∀ i, i < retries → attemptPayload (outcomes i) = none) →
      query outcomes retries = .error (lastExcIndex outcomes retries)) ∧
    (∀ j p, j < retries →
      (∀ i, i < j → attemptPayload (outcomes i) = none) →
      attemptPayload (outcomes j) = some p →
      ∀ g : Nat → AttemptOutcome, (∀ i, i ≤ j → g i = outcomes i) →
        query g retries = .ok p) ∧
    (∀ g : Nat → AttemptOutcome, (∀ i, i < retries → g i = outcomes i) →
      query g retries = query outcomes retries) := by
  refine ⟨?_, ?_, ?_⟩
  · intro h
    rw [query,
      queryGo_all_fail outcomes retries 0 none (fun k hk => by simpa using h k hk),
      lastExcAcc_eq_lastExcIndex]
  · intro j p hj hfail hsucc g hagree
    have hfail2 : ∀ k, k < j → attemptPayload (g (0 + k)) = none := by
      intro k hk
      rw [Nat.zero_add, hagree k (Nat.le_of_lt hk)]
      exact hfail k hk
    have hsucc2 : attemptPayload (g (0 + j)) = some p := by
      rw [Nat.zero_add, hagree j (Nat.le_refl j)]
      exact hsucc
    exact queryGo_success g retries j 0 none p hj hfail2 hsucc2
  · intro g hagree
    exact queryGo_congr outcomes g retries 0 none (fun k hk => by simpa using hagree k hk)

/-- Witness for claim C5: two attempts with no response, then a valid frame on
the last of three attempts, still succeed with that payload. -/
theorem query_spec_witness :
    query (fun i => if i < 2 then .response none
      else .response (some [0x02, 0x02, 0x01, 0x55])) 3 = .ok [0x55] :=
  (query_spec (fun i => if i < 2 then .response none
      else .response (some [0x02, 0x02, 0x01, 0x55])) 3).2.1 2 [0x55]
    (by decide) (by decide) (by decide)
    (fun i => if i < 2 then .response none
      else .response (some [0x02, 0x02, 0x01, 0x55]))
    (fun _ _ => rfl)

/-- When every cycle in the window either raised or was rejected, the battery
loop falls through to the cache (or fails without one). -/
theorem getBatteryStatusGo_exhaust (queryResults : Nat → Option (List Nat)) :
    ∀ (fuel i : Nat) (cache : Option BatteryStatus),
      (∀ k, k < fuel → queryResults (i + k) ≠ none ∧
        acceptedBattery (queryResults (i + k)) = none) →
      getBatteryStatusGo queryResults fuel i cache =
        match cache with
        | some cached => (.ok cached, some cached)
        | none => (.error .noSaneValue, none) := by
  intro fuel
  induction fuel with
  | zero =>
    intro i cache _
    rfl
  | succ n ih =>
    intro i cache hfail
    have h0 := hfail 0 (Nat.succ_pos n)
    rw [Nat.add_zero] at h0
    have hrest : ∀ k, k < n → queryResults (i + 1 + k) ≠ none ∧
        acceptedBattery (queryResults (i + 1 + k)) = none := by
      intro k hk
      have h := hfail (k + 1) (by omega)
      rwa [show i + (k + 1) = i + 1 + k from by omega] at h
    cases hq : queryResults i with
    | none => exact absurd hq h0.1
    | some payloadBytes =>
      rw [hq] at h0
      cases payloadBytes with
      | nil =>
        simp only [getBatteryStatusGo, hq]
        exact ih (i + 1) cache hrest
      | cons statusByte rest =>
        have hrej : ¬ (decodeBattery statusByte).chargePercent ≤ 100 := by
          intro hle
          have h2 := h0.2
          simp only [acceptedBattery] at h2
          rw [if_pos hle] at h2
          exact Option.noConfusion h2
        simp only [getBatteryStatusGo, hq]
        rw [if_neg (fun hc => hrej hc.2)]
        exact ih (i + 1) cache hrest

/-- The first accepted cycle makes the battery loop return its decoded value
and store it as the new cache. -/
theorem getBatteryStatusGo_success (queryResults : Nat → Option (List Nat)) :
    ∀ (fuel j i : Nat) (cache : Option BatteryStatus) (st : BatteryStatus),
      j < fuel →
      (∀ k, k < j → queryResults (i + k) ≠ none ∧
        acceptedBattery (queryResults (i + k)) = none) →
      acceptedBattery (queryResults (i + j)) = some st →
      getBatteryStatusGo queryResults fuel i cache = (.ok st, some st) := by
  intro fuel
  induction fuel with
  | zero =>
    intro j i cache st hj
    exact absurd hj (Nat.not_lt_zero j)
  | succ n ih =>
    intro j i cache st hj hfail hsucc
    cases j with
    | zero =>
      rw [Nat.add_zero] at hsucc
      cases hq : queryResults i with
      | none =>
        rw [hq] at hsucc
        simp [acceptedBattery] at hsucc
      | some payloadBytes =>
        rw [hq] at hsucc
        cases payloadBytes with
        | nil => simp [acceptedBattery] at hsucc
        | cons statusByte rest =>
          simp only [acceptedBattery] at hsucc
          by_cases hle : (decodeBattery statusByte).chargePercent ≤ 100
          · rw [if_pos hle] at hsucc
            have hst : decodeBattery statusByte = st := Option.some.inj hsucc
            simp only [getBatteryStatusGo, hq]
            rw [if_pos ⟨Nat.zero_le _, hle⟩, hst]
          · rw [if_neg hle] at hsucc
            exact Option.noConfusion hsucc
    | succ m =>
      have h0 := hfail 0 (Nat.succ_pos m)
      rw [Nat.add_zero] at h0
      have hrest : ∀ k, k < m → queryResults (i + 1 + k) ≠ none ∧
          acceptedBattery (queryResults (i + 1 + k)) = none := by
        intro k hk
        have h := hfail (k + 1) (by omega)
        rwa [show i + (k + 1) = i + 1 + k from by omega] at h
      have hsucc2 : acceptedBattery (queryResults (i + 1 + m)) = some st := by
        rwa [show i + (m + 1) = i + 1 + m from by omega] at hsucc
      cases hq : queryResults i with
      | none => exact absurd hq h0.1
      | some payloadBytes =>
        rw [hq] at h0
        cases payloadBytes with
        | nil =>
          simp only [getBatteryStatusGo, hq]
          exact ih m (i + 1) cache st (by omega) hrest hsucc2
        | cons statusByte rest =>
          have hrej : ¬ (decodeBattery statusByte).chargePercent ≤ 100 := by
            intro hle
            have h2 := h0.2
            simp only [acceptedBattery] at h2
            rw [if_pos hle] at h2
            exact Option.noConfusion h2
          simp only [getBatteryStatusGo, hq]
          rw [if_neg (fun hc => hrej hc.2)]
          exact ih m (i + 1) cache st (by omega) hrest hsucc2

/-- Claim C2: `getBatteryStatus` runs up to 6 (its default `retries`)
query+decode cycles; the first cycle whose decoded charge percent lies in
[0, 100] is accepted — it overwrites the cached last-good value and is
returned immediately, independently of any later cycle; if all 6 cycles
yield an out-of-range or absent (empty-payload) result without raising, a
cached last-good value is returned when one exists, and only with no cache
does the call fail with the no-sane-battery-value error. -/
theorem getBatteryStatus_spec (queryResults : Nat → Option (List Nat))
    (cache : Option BatteryStatus) :
    (∀ j st, j < 6 →
      (∀ i, i < j → queryResults i ≠ none ∧
        acceptedBattery (queryResults i) = none) →
      acceptedBattery (queryResults j) = some st →
      ∀ g : Nat → Option (List Nat), (∀ i, i ≤ j → g i = queryResults i) →
        getBatteryStatus g cache = (.ok st, some st)) ∧
    ((∀ i, i < 6 → queryResults i ≠ none ∧
        acceptedBattery (queryResults i) = none) →
      getBatteryStatus queryResults cache =
        match cache with
        | some cached => (.ok cached, some cached)
        | none => (.error .noSaneValue, none)) := by
  constructor
  · intro j st hj hfail hsucc g hagree
    have hfail2 : ∀ k, k < j → g (0 + k) ≠ none ∧
        acceptedBattery (g (0 + k)) = none := by
      intro k hk
      rw [Nat.zero_add, hagree k (Nat.le_of_lt hk)]
      exact hfail k hk
    have hsucc2 : acceptedBattery (g (0 + j)) = some st := by
      rw [Nat.zero_add, hagree j (Nat.le_refl j)]
      exact hsucc
    exact getBatteryStatusGo_success g 6 j 0 cache st hj hfail2 hsucc2
  · intro hfail
    exact getBatteryStatusGo_exhaust queryResults 6 0 cache
      (fun k hk => by simpa using hfail k hk)

/-- Witness for claim C2: every cycle decodes out of range (byte `0x7F`,
percent 127) while `{isCharging := false, chargePercent := 42}` is cached, so
the cached value is returned rather than failing. -/
theorem getBatteryStatus_spec_witness :
    getBatteryStatus (fun _ => some [0x7F])
      (some { isCharging := false, chargePercent := 42 }) =
      (.ok { isCharging := false, chargePercent := 42 },
        some { isCharging := false, chargePercent := 42 }) := by
  have h := (getBatteryStatus_spec (fun _ => some [0x7F])
      (some { isCharging := false, chargePercent := 42 })).2 ?hyp
  case hyp =>
    intro i _
    exact ⟨fun hc => Option.noConfusion hc, rfl⟩
  exact h

/-- Invariant of the battery loop: assuming the incoming cache (if present)
satisfies the charge-percent bound, any returned status satisfies it, the
cache is unchanged unless overwritten by the returned status, and the
outgoing cache (if present) satisfies it. -/
theorem getBatteryStatusGo_invariant (queryResults : Nat → Option (List Nat)) :
    ∀ (fuel i : Nat) (cache : Option BatteryStatus),
      (∀ c, cache = some c → c.chargePercent ≤ 100) →
      (∀ st, (getBatteryStatusGo queryResults fuel i cache).1 = .ok st →
        st.chargePercent ≤ 100) ∧
      ((getBatteryStatusGo queryResults fuel i cache).2 = cache ∨
        ∃ st, (getBatteryStatusGo queryResults fuel i cache).1 = .ok st ∧
          (getBatteryStatusGo queryResults fuel i cache).2 = some st) ∧
      (∀ c, (getBatteryStatusGo queryResults fuel i cache).2 = some c →
        c.chargePercent ≤ 100) := by
  intro fuel
  induction fuel with
  | zero =>
    intro i cache hcache
    cases cache with
    | none =>
      exact ⟨fun st h => Except.noConfusion h, Or.inl rfl,
        fun c hc => Option.noConfusion hc⟩
    | some cached =>
      refine ⟨fun st h => ?_, Or.inl rfl, fun c hc => ?_⟩
      · rw [← Except.ok.inj h]
        exact hcache cached rfl
      · rw [← Option.some.inj hc]
        exact hcache cached rfl
  | succ n ih =>
    intro i cache hcache
    cases hq : queryResults i with
    | none =>
      simp only [getBatteryStatusGo, hq]
      exact ⟨fun st h => Except.noConfusion h, Or.inl (by trivial), hcache⟩
    | some payloadBytes =>
      cases payloadBytes with
      | nil =>
        simp only [getBatteryStatusGo, hq]
        exact ih (i + 1) cache hcache
      | cons statusByte rest =>
        simp only [getBatteryStatusGo, hq]
        by_cases hle : 0 ≤ (decodeBattery statusByte).chargePercent ∧
            (decodeBattery statusByte).chargePercent ≤ 100
        · rw [if_pos hle]
          refine ⟨fun st h => ?_, Or.inr ⟨decodeBattery statusByte, rfl, rfl⟩,
            fun c hc => ?_⟩
          · rw [← Except.ok.inj h]
            exact hle.2
          · rw [← Option.some.inj hc]
            exact hle.2
        · rw [if_neg hle]
          exact ih (i + 1) cache hcache

/-- Claim C6: every `BatteryStatus` a `getBatteryStatus` call returns has
`chargePercent` in [0, 100] (it is a `Nat`, so nonnegative by construction),
and the cached `lastGoodBatteryStatus` is either left unchanged or overwritten
with the successfully returned, invariant-satisfying value — so whenever the
cache satisfies the invariant before a call, it satisfies it after. -/
theorem battery_invariant (queryResults : Nat → Option (List Nat))
    (cache : Option BatteryStatus) (retries : Nat)
    (hcache : ∀ c, cache = some c → c.chargePercent ≤ 100) :
    (∀ st, (getBatteryStatus queryResults cache retries).1 = .ok st →
      st.chargePercent ≤ 100) ∧
    ((getBatteryStatus queryResults cache retries).2 = cache ∨
      ∃ st, (getBatteryStatus queryResults cache retries).1 = .ok st ∧
        (getBatteryStatus queryResults cache retries).2 = some st) ∧
    (∀ c, (getBatteryStatus queryResults cache retries).2 = some c →
      c.chargePercent ≤ 100) :=
  getBatteryStatusGo_invariant queryResults retries 0 cache hcache

/-- Witness for claim C6: a successful read of byte `0x42` (66 percent,
accepted from an empty cache) satisfies the invariant. -/
theorem battery_invariant_witness :
    ({ isCharging := false, chargePercent := 66 } : BatteryStatus).chargePercent ≤ 100 :=
  (battery_invariant (fun _ => some [0x42]) none 6
      (fun _ hc => Option.noConfusion hc)).1
    { isCharging := false, chargePercent := 66 } rfl

end HyperHeadset
